import Mathlib

/-!
Verification of the amino-acid-type probability classifier
(`tpye_calculation.py`) and the chemical-shift perturbation formula
(`nmr_calculation.py`) of the CSP_calculation repository.

The reference table entries carry exact decimal parameters, so table
fields are embedded as rationals; all arithmetic of the classifier is
carried out over the reals, with `Real.exp` and `Real.pi` standing for
`math.exp` and `math.pi`.
-/

/-- One row of `AMINO_ACID_DATA`: label, side-chain position, and the
mean/standard-deviation pairs of the two chemical-shift dimensions. -/
structure ReferenceEntry where
  amino_acid : String
  position_label : String
  mu_H : ℚ
  sigma_H : ℚ
  mu_C : ℚ
  sigma_C : ℚ
  deriving DecidableEq

/-- The hardcoded reference table of `tpye_calculation.py`. -/
def AMINO_ACID_DATA : List ReferenceEntry :=
  [⟨"Ala", "β", 1.353, 0.276, 19.028, 2.911⟩,
   ⟨"Ile", "δ", 0.674, 0.326, 13.489, 3.318⟩,
   ⟨"Ile", "γ", 0.77, 0.302, 17.601, 3.15⟩,
   ⟨"Leu", "δ1", 0.747, 0.327, 24.654, 2.01⟩,
   ⟨"Leu", "δ2", 0.729, 0.383, 24.13, 2.085⟩,
   ⟨"Thr", "γ", 1.139, 0.273, 21.592, 1.855⟩,
   ⟨"Val", "γ1", 0.819, 0.328, 21.534, 2.344⟩,
   ⟨"Val", "γ2", 0.802, 0.419, 21.346, 2.44⟩,
   ⟨"Met", "ε", 1.787, 1.469, 17.238, 3.992⟩,
   ⟨"Phe", "δ1", 7.04, 0.393, 131.207, 5.749⟩,
   ⟨"Phe", "δ2", 7.041, 0.405, 131.344, 4.401⟩,
   ⟨"Phe", "ε1", 7.065, 0.444, 130.351, 5.705⟩,
   ⟨"Phe", "ε2", 7.064, 0.439, 130.544, 4.096⟩,
   ⟨"Phe", "ζ", 6.995, 0.702, 129.035, 4.103⟩,
   ⟨"Trp", "δ", 7.128, 0.36, 126.35, 4.321⟩,
   ⟨"Trp", "ε3", 7.302, 0.514, 120.216, 5.345⟩,
   ⟨"Trp", "η2", 6.958, 0.447, 123.566, 4.837⟩,
   ⟨"Trp", "ζ2", 7.27, 0.404, 114.076, 4.446⟩,
   ⟨"Trp", "ζ3", 6.854, 0.464, 121.186, 4.493⟩,
   ⟨"Tyr", "δ1", 6.921, 0.367, 132.388, 5.213⟩,
   ⟨"Tyr", "δ2", 6.918, 0.371, 132.395, 5.177⟩,
   ⟨"Tyr", "ε1", 6.691, 0.303, 117.748, 3.941⟩,
   ⟨"Tyr", "ε2", 6.692, 0.313, 117.79, 3.221⟩,
   ⟨"His", "ε2", 7.138, 3.154, 119.91, 5.5⟩,
   ⟨"His", "ε", 7.841, 2.454, 137.258, 5.512⟩]

/-- The `Met ε` row of the table. -/
def metEntry : ReferenceEntry := ⟨"Met", "ε", 1.787, 1.469, 17.238, 3.992⟩

/-- The `Ala β` row of the table. -/
def alaEntry : ReferenceEntry := ⟨"Ala", "β", 1.353, 0.276, 19.028, 2.911⟩

/-- The `Trp ζ3` row of the table. -/
def trpZ3Entry : ReferenceEntry := ⟨"Trp", "ζ3", 6.854, 0.464, 121.186, 4.493⟩

/-- The `His ε2` row of the table. -/
def hisE2Entry : ReferenceEntry := ⟨"His", "ε2", 7.138, 3.154, 119.91, 5.5⟩

/-- The `Tyr ε1` row of the table. -/
def tyrE1Entry : ReferenceEntry := ⟨"Tyr", "ε1", 6.691, 0.303, 117.748, 3.941⟩

/-- The `Trp δ` row of the table. -/
def trpDEntry : ReferenceEntry := ⟨"Trp", "δ", 7.128, 0.36, 126.35, 4.321⟩

/-- The normalized squared distance of the observed point `(a, b)` from the
mean of a distribution, the quantity called `z` in the specification and
appearing as `-2 * exponent` in `probability_density`. -/
noncomputable def zval (a b mu_H sigma_H mu_C sigma_C : ℝ) : ℝ :=
  ((a - mu_H) / sigma_H) ^ 2 + ((b - mu_C) / sigma_C) ^ 2

/-- `probability_density` of `tpye_calculation.py`: the bivariate
diagonal-covariance Gaussian density at `(a, b)`. -/
noncomputable def probability_density (a b mu_H sigma_H mu_C sigma_C : ℝ) : ℝ :=
  (1.0 / (2.0 * Real.pi * sigma_H * sigma_C)) *
    Real.exp (-0.5 * (((a - mu_H) / sigma_H) ^ 2 + ((b - mu_C) / sigma_C) ^ 2))

/-- The density of one reference entry at the observed point. -/
noncomputable def entryDensity (a b : ℝ) (e : ReferenceEntry) : ℝ :=
  probability_density a b e.mu_H e.sigma_H e.mu_C e.sigma_C

/-- Python's `max(densities) if densities else 0.0`. -/
noncomputable def pyMax : List ℝ → ℝ
  | [] => 0.0
  | x :: xs => xs.foldl max x

/-- The distinct amino-acid labels of the table, one occurrence each,
mirroring `list(set([entry[0] for entry in AMINO_ACID_DATA]))`. -/
def amino_acids (table : List ReferenceEntry) : List String :=
  (table.map (fun e => e.amino_acid)).dedup

/-- The densities of all entries carrying the label `aa`, mirroring the
inner loop of `calculate_amino_acid_probabilities`. -/
noncomputable def densityList (table : List ReferenceEntry) (a b : ℝ) (aa : String) : List ℝ :=
  (table.filter (fun e => e.amino_acid == aa)).map (entryDensity a b)

/-- The per-type aggregated density `f_x = max(densities) if densities else 0.0`. -/
noncomputable def f_x (table : List ReferenceEntry) (a b : ℝ) (aa : String) : ℝ :=
  pyMax (densityList table a b aa)

/-- `total_density = sum(density_dict.values())`. -/
noncomputable def total_density (table : List ReferenceEntry) (a b : ℝ) : ℝ :=
  ((amino_acids table).map (f_x table a b)).sum

/-- `prob = f_x / total_density if total_density > 0 else 0.0`. -/
noncomputable def prob (table : List ReferenceEntry) (a b : ℝ) (aa : String) : ℝ :=
  if total_density table a b > 0 then f_x table a b aa / total_density table a b else 0.0

/-- `prob_dict` as an association list over the distinct labels. -/
noncomputable def prob_list (table : List ReferenceEntry) (a b : ℝ) : List (String × ℝ) :=
  (amino_acids table).map (fun aa => (aa, prob table a b aa))

/-- `sorted_probs = sorted(prob_dict.items(), key=..., reverse=True)`:
the pairs sorted by probability descending. -/
noncomputable def sorted_probs (table : List ReferenceEntry) (a b : ℝ) : List (String × ℝ) :=
  (prob_list table a b).mergeSort (fun p q => decide (q.2 ≤ p.2))

/-- `calculate_amino_acid_probabilities(a, b, verbose)`: returns the pair
`(prob_dict, sorted_probs)`; the `verbose` flag only controls console
reporting and does not enter the computed value. -/
noncomputable def calculate_amino_acid_probabilities (a b : ℝ) (verbose : Bool) :
    List (String × ℝ) × List (String × ℝ) :=
  (prob_list AMINO_ACID_DATA a b, sorted_probs AMINO_ACID_DATA a b)

/-- The rational normalized squared distance of `(a, b)` from entry `e`. -/
def zQ (a b : ℚ) (e : ReferenceEntry) : ℚ :=
  ((a - e.mu_H) / e.sigma_H) ^ 2 + ((b - e.mu_C) / e.sigma_C) ^ 2

/-- Iterated multiplication on ℚ, kept first-order so that certificate
checks evaluate by kernel reduction. -/
def qpow (q : ℚ) : ℕ → ℚ
  | 0 => 1
  | n + 1 => q * qpow q n

/-- Order of the rational exponential bounds used in density-comparison
certificates. -/
def certN : ℕ := 8

/-- Rational certificate that entry `hi` has density at least that of
entry `lo` at the point `(a, b)`: a lower bound for `hi`'s density
exceeds an upper bound for `lo`'s. -/
def domCert (a b : ℚ) (hi lo : ReferenceEntry) : Bool :=
  decide (zQ a b hi ≤ 2 * (certN : ℚ)) &&
  decide (hi.sigma_H * hi.sigma_C ≤
    lo.sigma_H * lo.sigma_C * qpow (1 - zQ a b hi / (2 * (certN : ℚ))) certN *
      qpow (1 + zQ a b lo / (2 * (certN : ℚ))) certN)

/-- Strict variant of `domCert`. -/
def domCertS (a b : ℚ) (hi lo : ReferenceEntry) : Bool :=
  decide (zQ a b hi ≤ 2 * (certN : ℚ)) &&
  decide (hi.sigma_H * hi.sigma_C <
    lo.sigma_H * lo.sigma_C * qpow (1 - zQ a b hi / (2 * (certN : ℚ))) certN *
      qpow (1 + zQ a b lo / (2 * (certN : ℚ))) certN)

/-- The three table rows at whose means the own type is *not* top-ranked:
their standard deviations are so large that another type's density
exceeds their own peak density there. -/
def EXCLUDED : List ReferenceEntry := [metEntry, trpZ3Entry, hisE2Entry]

/-- Global certificate: for every non-excluded row `e` and every entry `r`
of a different type, some entry `s` of `e`'s own type has certified
density at `(e.mu_H, e.mu_C)` at least that of `r`. -/
def tableCert : Bool :=
  AMINO_ACID_DATA.all (fun e =>
    EXCLUDED.contains e ||
      AMINO_ACID_DATA.all (fun r =>
        (r.amino_acid == e.amino_acid) ||
          AMINO_ACID_DATA.any (fun s =>
            (s.amino_acid == e.amino_acid) && domCert e.mu_H e.mu_C s r)))

/-- `calculate_delta_comb` of `nmr_calculation.py`; the `ValueError` raise
is embedded as `Except.error` (quotes of the original message elided). -/
noncomputable def calculate_delta_comb (H1 C1 H2 C2 : ℝ) (residue_type : String) :
    Except String (ℝ × ℝ × ℝ) :=
  let delta_H := |H2 - H1|
  let delta_C := |C2 - C1|
  let omega_H : ℝ := 1.00
  match (if residue_type.toLower = "aliphatic" then some (0.34 : ℝ)
         else if residue_type.toLower = "aromatic" then some (0.07 : ℝ)
         else none) with
  | none => Except.error "residue_type must be either aliphatic or aromatic"
  | some omega_C =>
      Except.ok (Real.sqrt (omega_H * delta_H ^ 2 + omega_C * delta_C ^ 2), delta_H, delta_C)

/-! ### Helper lemmas -/

theorem qpow_eq (q : ℚ) (n : ℕ) : qpow q n = q ^ n := by
  induction n with
  | zero => rfl
  | succ n ih => rw [qpow, ih, pow_succ, mul_comm]

theorem exp_neg_le_inv_pow (x : ℝ) (n : ℕ) (hx : 0 ≤ x) (hn : n ≠ 0) :
    Real.exp (-x) ≤ ((1 + x / n) ^ n)⁻¹ := by
  have hnR : (0 : ℝ) < n := by
    have := Nat.pos_of_ne_zero hn
    exact_mod_cast this
  have hb : (0 : ℝ) < 1 + x / n := by positivity
  have h2 : 1 + x / n ≤ Real.exp (x / n) := by
    have := Real.add_one_le_exp (x / n)
    linarith
  have h1 : (1 + x / n) ^ n ≤ Real.exp x := by
    calc (1 + x / n) ^ n ≤ Real.exp (x / n) ^ n := pow_le_pow_left hb.le h2 n
    _ = Real.exp x := by
      rw [← Real.exp_nat_mul]
      congr 1
      field_simp
  rw [Real.exp_neg]
  exact inv_le_inv_of_le (by positivity) h1

theorem pow_le_exp_neg (x : ℝ) (n : ℕ) (hx : 0 ≤ x) (hxn : x ≤ n) :
    (1 - x / n) ^ n ≤ Real.exp (-x) := by
  rcases Nat.eq_zero_or_pos n with h0 | hpos
  · subst h0
    have hx0 : x = 0 := le_antisymm (by exact_mod_cast hxn) hx
    simp [hx0]
  · have hnR : (0 : ℝ) < n := by exact_mod_cast hpos
    have hb : (0 : ℝ) ≤ 1 - x / n := by
      rw [sub_nonneg]
      exact (div_le_one hnR).mpr hxn
    have h2 : 1 - x / n ≤ Real.exp (-(x / n)) := by
      have := Real.add_one_le_exp (-(x / n))
      linarith
    calc (1 - x / n) ^ n ≤ Real.exp (-(x / n)) ^ n := pow_le_pow_left hb h2 n
    _ = Real.exp (-x) := by
      rw [← Real.exp_nat_mul]
      congr 1
      field_simp
      ring

theorem le_foldl_max (xs : List ℝ) (a : ℝ) : a ≤ xs.foldl max a := by
  induction xs generalizing a with
  | nil => simp
  | cons y ys ih => exact le_trans (le_max_left a y) (ih (max a y))

theorem mem_le_foldl_max (xs : List ℝ) (a x : ℝ) (hx : x ∈ xs) : x ≤ xs.foldl max a := by
  induction xs generalizing a with
  | nil => cases hx
  | cons y ys ih =>
    rcases List.mem_cons.mp hx with rfl | h
    · exact le_trans (le_max_right a x) (le_foldl_max ys (max a x))
    · exact ih (max a y) h

theorem foldl_max_le (xs : List ℝ) (a c : ℝ) (ha : a ≤ c) (h : ∀ x ∈ xs, x ≤ c) :
    xs.foldl max a ≤ c := by
  induction xs generalizing a with
  | nil => simpa using ha
  | cons y ys ih =>
    exact ih (max a y) (max_le ha (h y (List.mem_cons_self y ys)))
      (fun x hx => h x (List.mem_cons_of_mem y hx))

theorem foldl_max_cases (xs : List ℝ) (a : ℝ) : xs.foldl max a = a ∨ xs.foldl max a ∈ xs := by
  induction xs generalizing a with
  | nil => exact Or.inl rfl
  | cons y ys ih =>
    rcases ih (max a y) with h | h
    · rcases max_choice a y with hm | hm
      · exact Or.inl (by rw [List.foldl_cons, h, hm])
      · exact Or.inr (by rw [List.foldl_cons, h, hm]; exact List.mem_cons_self y ys)
    · exact Or.inr (List.mem_cons_of_mem y h)

theorem pyMax_mem {l : List ℝ} (hl : l ≠ []) : pyMax l ∈ l := by
  match l with
  | [] => exact absurd rfl hl
  | x :: xs =>
    rcases foldl_max_cases xs x with h | h
    · rw [pyMax, h]; exact List.mem_cons_self x xs
    · exact List.mem_cons_of_mem x h

theorem le_pyMax {l : List ℝ} {x : ℝ} (hx : x ∈ l) : x ≤ pyMax l := by
  match l with
  | [] => cases hx
  | y :: ys =>
    rcases List.mem_cons.mp hx with rfl | h
    · exact le_foldl_max ys x
    · exact mem_le_foldl_max ys y x h

theorem pyMax_le {l : List ℝ} {c : ℝ} (hc : 0 ≤ c) (h : ∀ x ∈ l, x ≤ c) : pyMax l ≤ c := by
  match l with
  | [] =>
    have h0 : pyMax ([] : List ℝ) = 0 := by norm_num [pyMax]
    rw [h0]
    exact hc
  | y :: ys =>
    exact foldl_max_le ys y c (h y (List.mem_cons_self y ys))
      (fun x hx => h x (List.mem_cons_of_mem y hx))

theorem exp_arg_eq (z : ℝ) : -0.5 * z = -(z / 2) := by ring

theorem entryDensity_eq (a b : ℝ) (e : ReferenceEntry) :
    entryDensity a b e =
      Real.exp (-(zval a b e.mu_H e.sigma_H e.mu_C e.sigma_C / 2)) *
        (2 * Real.pi * ((e.sigma_H : ℝ) * (e.sigma_C : ℝ)))⁻¹ := by
  unfold entryDensity probability_density zval
  rw [exp_arg_eq]
  rw [div_eq_mul_inv]
  norm_num
  ring

theorem zQ_cast (a b : ℚ) (e : ReferenceEntry) :
    ((zQ a b e : ℚ) : ℝ) = zval (a : ℝ) (b : ℝ) e.mu_H e.sigma_H e.mu_C e.sigma_C := by
  unfold zQ zval
  push_cast
  ring

theorem zQ_nonneg (a b : ℚ) (e : ReferenceEntry) : 0 ≤ zQ a b e := by
  unfold zQ
  positivity

theorem entryDensity_pos (a b : ℝ) (e : ReferenceEntry)
    (hH : (0 : ℝ) < (e.sigma_H : ℝ)) (hC : (0 : ℝ) < (e.sigma_C : ℝ)) :
    0 < entryDensity a b e := by
  rw [entryDensity_eq]
  have hpi : (0 : ℝ) < 2 * Real.pi := by positivity
  exact mul_pos (Real.exp_pos _) (inv_pos.mpr (mul_pos hpi (mul_pos hH hC)))

theorem bound_chain (A B PL PH : ℝ) (hA : 0 < A) (hB : 0 ≤ B) (hPL : 0 < PL) (hPH : 0 < PH)
    (h : PH ≤ PL * B * A) :
    A⁻¹ * (2 * Real.pi * PL)⁻¹ ≤ B * (2 * Real.pi * PH)⁻¹ := by
  have hpi : (0 : ℝ) < 2 * Real.pi := by positivity
  have h1 : (0 : ℝ) < A * (2 * Real.pi * PL) := by positivity
  have h2 : (0 : ℝ) < 2 * Real.pi * PH := by positivity
  have e1 : A⁻¹ * (2 * Real.pi * PL)⁻¹ = 1 / (A * (2 * Real.pi * PL)) := by
    rw [one_div, mul_inv A]
  have e2 : B * (2 * Real.pi * PH)⁻¹ = B / (2 * Real.pi * PH) := (div_eq_mul_inv B _).symm
  rw [e1, e2, div_le_div_iff h1 h2]
  calc 1 * (2 * Real.pi * PH) = 2 * Real.pi * PH := by ring
  _ ≤ 2 * Real.pi * (PL * B * A) := mul_le_mul_of_nonneg_left h hpi.le
  _ = B * (A * (2 * Real.pi * PL)) := by ring

theorem bound_chain_strict (A B PL PH : ℝ) (hA : 0 < A) (hB : 0 ≤ B) (hPL : 0 < PL)
    (hPH : 0 < PH) (h : PH < PL * B * A) :
    A⁻¹ * (2 * Real.pi * PL)⁻¹ < B * (2 * Real.pi * PH)⁻¹ := by
  have hpi : (0 : ℝ) < 2 * Real.pi := by positivity
  have h1 : (0 : ℝ) < A * (2 * Real.pi * PL) := by positivity
  have h2 : (0 : ℝ) < 2 * Real.pi * PH := by positivity
  have e1 : A⁻¹ * (2 * Real.pi * PL)⁻¹ = 1 / (A * (2 * Real.pi * PL)) := by
    rw [one_div, mul_inv A]
  have e2 : B * (2 * Real.pi * PH)⁻¹ = B / (2 * Real.pi * PH) := (div_eq_mul_inv B _).symm
  rw [e1, e2, div_lt_div_iff h1 h2]
  calc 1 * (2 * Real.pi * PH) = 2 * Real.pi * PH := by ring
  _ < 2 * Real.pi * (PL * B * A) := by
      have := mul_lt_mul_of_pos_left h hpi
      linarith
  _ = B * (A * (2 * Real.pi * PL)) := by ring

theorem certN_ne_zero : certN ≠ 0 := by norm_num [certN]

theorem certN_cast_pos : (0 : ℝ) < (certN : ℝ) := by norm_num [certN]

theorem domCert_sound (a b : ℚ) (hi lo : ReferenceEntry)
    (hhH : (0 : ℝ) < (hi.sigma_H : ℝ)) (hhC : (0 : ℝ) < (hi.sigma_C : ℝ))
    (hlH : (0 : ℝ) < (lo.sigma_H : ℝ)) (hlC : (0 : ℝ) < (lo.sigma_C : ℝ))
    (h : domCert a b hi lo = true) :
    entryDensity (a : ℝ) (b : ℝ) lo ≤ entryDensity (a : ℝ) (b : ℝ) hi := by
  rw [domCert, Bool.and_eq_true, decide_eq_true_eq, decide_eq_true_eq, qpow_eq, qpow_eq] at h
  obtain ⟨h1, h2⟩ := h
  set v : ℝ := ((zQ a b hi : ℚ) : ℝ) with hv
  set u : ℝ := ((zQ a b lo : ℚ) : ℝ) with hu
  have hv0 : 0 ≤ v := by
    rw [hv]
    exact_mod_cast zQ_nonneg a b hi
  have hu0 : 0 ≤ u := by
    rw [hu]
    exact_mod_cast zQ_nonneg a b lo
  have hv2N : v ≤ 2 * (certN : ℝ) := by
    rw [hv]
    exact_mod_cast h1
  have H2 : (hi.sigma_H : ℝ) * (hi.sigma_C : ℝ) ≤
      (lo.sigma_H : ℝ) * (lo.sigma_C : ℝ) * (1 - v / (2 * (certN : ℝ))) ^ certN *
        (1 + u / (2 * (certN : ℝ))) ^ certN := by
    rw [hv, hu]
    exact_mod_cast h2
  have hband : (0 : ℝ) < 1 + u / 2 / (certN : ℝ) := by
    have : (0 : ℝ) ≤ u / 2 / (certN : ℝ) :=
      div_nonneg (div_nonneg hu0 (by norm_num)) certN_cast_pos.le
    linarith
  have hA : (0 : ℝ) < (1 + u / (2 * (certN : ℝ))) ^ certN := by
    rw [← div_div]
    exact pow_pos hband certN
  have hB : (0 : ℝ) ≤ (1 - v / (2 * (certN : ℝ))) ^ certN := by
    apply pow_nonneg
    rw [sub_nonneg]
    apply div_le_one_of_le hv2N
    have := certN_cast_pos
    linarith
  have ub : Real.exp (-(u / 2)) ≤ ((1 + u / (2 * (certN : ℝ))) ^ certN)⁻¹ := by
    rw [← div_div]
    exact exp_neg_le_inv_pow (u / 2) certN (div_nonneg hu0 (by norm_num)) certN_ne_zero
  have lb : (1 - v / (2 * (certN : ℝ))) ^ certN ≤ Real.exp (-(v / 2)) := by
    rw [← div_div]
    apply pow_le_exp_neg (v / 2) certN (div_nonneg hv0 (by norm_num))
    linarith
  have edlo : entryDensity (a : ℝ) (b : ℝ) lo =
      Real.exp (-(u / 2)) * (2 * Real.pi * ((lo.sigma_H : ℝ) * (lo.sigma_C : ℝ)))⁻¹ := by
    rw [entryDensity_eq, hu, zQ_cast]
  have edhi : entryDensity (a : ℝ) (b : ℝ) hi =
      Real.exp (-(v / 2)) * (2 * Real.pi * ((hi.sigma_H : ℝ) * (hi.sigma_C : ℝ)))⁻¹ := by
    rw [entryDensity_eq, hv, zQ_cast]
  rw [edlo, edhi]
  calc Real.exp (-(u / 2)) * (2 * Real.pi * ((lo.sigma_H : ℝ) * (lo.sigma_C : ℝ)))⁻¹
      ≤ ((1 + u / (2 * (certN : ℝ))) ^ certN)⁻¹ *
          (2 * Real.pi * ((lo.sigma_H : ℝ) * (lo.sigma_C : ℝ)))⁻¹ := by
        apply mul_le_mul_of_nonneg_right ub
        have hpi : (0 : ℝ) < 2 * Real.pi := by positivity
        exact inv_nonneg.mpr (mul_pos hpi (mul_pos hlH hlC)).le
  _ ≤ (1 - v / (2 * (certN : ℝ))) ^ certN *
          (2 * Real.pi * ((hi.sigma_H : ℝ) * (hi.sigma_C : ℝ)))⁻¹ :=
        bound_chain _ _ _ _ hA hB (mul_pos hlH hlC) (mul_pos hhH hhC) H2
  _ ≤ Real.exp (-(v / 2)) * (2 * Real.pi * ((hi.sigma_H : ℝ) * (hi.sigma_C : ℝ)))⁻¹ := by
        apply mul_le_mul_of_nonneg_right lb
        have hpi : (0 : ℝ) < 2 * Real.pi := by positivity
        exact inv_nonneg.mpr (mul_pos hpi (mul_pos hhH hhC)).le

theorem domCertS_sound (a b : ℚ) (hi lo : ReferenceEntry)
    (hhH : (0 : ℝ) < (hi.sigma_H : ℝ)) (hhC : (0 : ℝ) < (hi.sigma_C : ℝ))
    (hlH : (0 : ℝ) < (lo.sigma_H : ℝ)) (hlC : (0 : ℝ) < (lo.sigma_C : ℝ))
    (h : domCertS a b hi lo = true) :
    entryDensity (a : ℝ) (b : ℝ) lo < entryDensity (a : ℝ) (b : ℝ) hi := by
  rw [domCertS, Bool.and_eq_true, decide_eq_true_eq, decide_eq_true_eq, qpow_eq, qpow_eq] at h
  obtain ⟨h1, h2⟩ := h
  set v : ℝ := ((zQ a b hi : ℚ) : ℝ) with hv
  set u : ℝ := ((zQ a b lo : ℚ) : ℝ) with hu
  have hv0 : 0 ≤ v := by
    rw [hv]
    exact_mod_cast zQ_nonneg a b hi
  have hu0 : 0 ≤ u := by
    rw [hu]
    exact_mod_cast zQ_nonneg a b lo
  have hv2N : v ≤ 2 * (certN : ℝ) := by
    rw [hv]
    exact_mod_cast h1
  have H2 : (hi.sigma_H : ℝ) * (hi.sigma_C : ℝ) <
      (lo.sigma_H : ℝ) * (lo.sigma_C : ℝ) * (1 - v / (2 * (certN : ℝ))) ^ certN *
        (1 + u / (2 * (certN : ℝ))) ^ certN := by
    rw [hv, hu]
    exact_mod_cast h2
  have hband : (0 : ℝ) < 1 + u / 2 / (certN : ℝ) := by
    have : (0 : ℝ) ≤ u / 2 / (certN : ℝ) :=
      div_nonneg (div_nonneg hu0 (by norm_num)) certN_cast_pos.le
    linarith
  have hA : (0 : ℝ) < (1 + u / (2 * (certN : ℝ))) ^ certN := by
    rw [← div_div]
    exact pow_pos hband certN
  have hB : (0 : ℝ) ≤ (1 - v / (2 * (certN : ℝ))) ^ certN := by
    apply pow_nonneg
    rw [sub_nonneg]
    apply div_le_one_of_le hv2N
    have := certN_cast_pos
    linarith
  have ub : Real.exp (-(u / 2)) ≤ ((1 + u / (2 * (certN : ℝ))) ^ certN)⁻¹ := by
    rw [← div_div]
    exact exp_neg_le_inv_pow (u / 2) certN (div_nonneg hu0 (by norm_num)) certN_ne_zero
  have lb : (1 - v / (2 * (certN : ℝ))) ^ certN ≤ Real.exp (-(v / 2)) := by
    rw [← div_div]
    apply pow_le_exp_neg (v / 2) certN (div_nonneg hv0 (by norm_num))
    linarith
  have edlo : entryDensity (a : ℝ) (b : ℝ) lo =
      Real.exp (-(u / 2)) * (2 * Real.pi * ((lo.sigma_H : ℝ) * (lo.sigma_C : ℝ)))⁻¹ := by
    rw [entryDensity_eq, hu, zQ_cast]
  have edhi : entryDensity (a : ℝ) (b : ℝ) hi =
      Real.exp (-(v / 2)) * (2 * Real.pi * ((hi.sigma_H : ℝ) * (hi.sigma_C : ℝ)))⁻¹ := by
    rw [entryDensity_eq, hv, zQ_cast]
  rw [edlo, edhi]
  have step1 : Real.exp (-(u / 2)) * (2 * Real.pi * ((lo.sigma_H : ℝ) * (lo.sigma_C : ℝ)))⁻¹
      ≤ ((1 + u / (2 * (certN : ℝ))) ^ certN)⁻¹ *
          (2 * Real.pi * ((lo.sigma_H : ℝ) * (lo.sigma_C : ℝ)))⁻¹ := by
    apply mul_le_mul_of_nonneg_right ub
    have hpi : (0 : ℝ) < 2 * Real.pi := by positivity
    exact inv_nonneg.mpr (mul_pos hpi (mul_pos hlH hlC)).le
  have step2 : ((1 + u / (2 * (certN : ℝ))) ^ certN)⁻¹ *
          (2 * Real.pi * ((lo.sigma_H : ℝ) * (lo.sigma_C : ℝ)))⁻¹
      < (1 - v / (2 * (certN : ℝ))) ^ certN *
          (2 * Real.pi * ((hi.sigma_H : ℝ) * (hi.sigma_C : ℝ)))⁻¹ :=
    bound_chain_strict _ _ _ _ hA hB (mul_pos hlH hlC) (mul_pos hhH hhC) H2
  have step3 : (1 - v / (2 * (certN : ℝ))) ^ certN *
          (2 * Real.pi * ((hi.sigma_H : ℝ) * (hi.sigma_C : ℝ)))⁻¹
      ≤ Real.exp (-(v / 2)) * (2 * Real.pi * ((hi.sigma_H : ℝ) * (hi.sigma_C : ℝ)))⁻¹ := by
    apply mul_le_mul_of_nonneg_right lb
    have hpi : (0 : ℝ) < 2 * Real.pi := by positivity
    exact inv_nonneg.mpr (mul_pos hpi (mul_pos hhH hhC)).le
  exact lt_of_le_of_lt step1 (lt_of_lt_of_le step2 step3)

unseal Rat.ofScientific in
theorem table_sigma_pos : ∀ e ∈ AMINO_ACID_DATA, (0 : ℚ) < e.sigma_H ∧ (0 : ℚ) < e.sigma_C := by
  decide

theorem table_sigma_posR (e : ReferenceEntry) (he : e ∈ AMINO_ACID_DATA) :
    (0 : ℝ) < (e.sigma_H : ℝ) ∧ (0 : ℝ) < (e.sigma_C : ℝ) := by
  obtain ⟨h1, h2⟩ := table_sigma_pos e he
  constructor
  · exact_mod_cast h1
  · exact_mod_cast h2

theorem mem_amino_acids {table : List ReferenceEntry} {t : String} :
    t ∈ amino_acids table ↔ ∃ e ∈ table, e.amino_acid = t := by
  unfold amino_acids
  rw [List.mem_dedup, List.mem_map]

theorem entryDensity_mem_densityList {table : List ReferenceEntry} {e : ReferenceEntry}
    (a b : ℝ) (he : e ∈ table) {t : String} (ht : e.amino_acid = t) :
    entryDensity a b e ∈ densityList table a b t := by
  unfold densityList
  exact List.mem_map_of_mem _ (List.mem_filter.mpr ⟨he, by simp [ht]⟩)

theorem entryDensity_le_f_x {table : List ReferenceEntry} {e : ReferenceEntry}
    (a b : ℝ) (he : e ∈ table) {t : String} (ht : e.amino_acid = t) :
    entryDensity a b e ≤ f_x table a b t :=
  le_pyMax (entryDensity_mem_densityList a b he ht)

theorem densityList_mem_elim {table : List ReferenceEntry} {a b : ℝ} {t : String} {x : ℝ}
    (hx : x ∈ densityList table a b t) :
    ∃ e ∈ table, e.amino_acid = t ∧ x = entryDensity a b e := by
  unfold densityList at hx
  obtain ⟨e, he, rfl⟩ := List.mem_map.mp hx
  obtain ⟨he₁, he₂⟩ := List.mem_filter.mp he
  exact ⟨e, he₁, by simpa using he₂, rfl⟩

theorem f_x_TABLE_pos (a b : ℝ) {t : String} (ht : t ∈ amino_acids AMINO_ACID_DATA) :
    0 < f_x AMINO_ACID_DATA a b t := by
  obtain ⟨e, he, haa⟩ := mem_amino_acids.mp ht
  obtain ⟨h1, h2⟩ := table_sigma_posR e he
  exact lt_of_lt_of_le (entryDensity_pos a b e h1 h2) (entryDensity_le_f_x a b he haa)

theorem amino_acids_TABLE_ne_nil : amino_acids AMINO_ACID_DATA ≠ [] := by
  unfold amino_acids AMINO_ACID_DATA
  decide

theorem total_density_TABLE_pos (a b : ℝ) : 0 < total_density AMINO_ACID_DATA a b := by
  unfold total_density
  apply List.sum_pos
  · intro x hx
    obtain ⟨t, ht, rfl⟩ := List.mem_map.mp hx
    exact f_x_TABLE_pos a b ht
  · intro h
    exact amino_acids_TABLE_ne_nil (List.map_eq_nil.mp h)

theorem f_x_le_of_forall {table : List ReferenceEntry} {a b : ℝ} {t : String} {c : ℝ}
    (hc : 0 ≤ c) (h : ∀ e ∈ table, e.amino_acid = t → entryDensity a b e ≤ c) :
    f_x table a b t ≤ c := by
  apply pyMax_le hc
  intro x hx
  obtain ⟨e, he, haa, rfl⟩ := densityList_mem_elim hx
  exact h e he haa

theorem prob_TABLE_eq (a b : ℝ) (t : String) :
    prob AMINO_ACID_DATA a b t =
      f_x AMINO_ACID_DATA a b t / total_density AMINO_ACID_DATA a b := by
  unfold prob
  rw [if_pos (total_density_TABLE_pos a b)]

theorem prob_TABLE_le (a b : ℝ) {t u : String}
    (h : f_x AMINO_ACID_DATA a b t ≤ f_x AMINO_ACID_DATA a b u) :
    prob AMINO_ACID_DATA a b t ≤ prob AMINO_ACID_DATA a b u := by
  rw [prob_TABLE_eq, prob_TABLE_eq]
  exact (div_le_div_right (total_density_TABLE_pos a b)).mpr h

theorem prob_TABLE_lt (a b : ℝ) {t u : String}
    (h : f_x AMINO_ACID_DATA a b t < f_x AMINO_ACID_DATA a b u) :
    prob AMINO_ACID_DATA a b t < prob AMINO_ACID_DATA a b u := by
  rw [prob_TABLE_eq, prob_TABLE_eq]
  exact (div_lt_div_right (total_density_TABLE_pos a b)).mpr h

unseal Rat.ofScientific Rat.add Rat.sub Rat.mul Rat.inv in
theorem tableCert_true : tableCert = true := by decide

theorem cert_elim {e r : ReferenceEntry} (he : e ∈ AMINO_ACID_DATA) (hr : r ∈ AMINO_ACID_DATA)
    (hne : e ∉ EXCLUDED) (hdiff : r.amino_acid ≠ e.amino_acid) :
    ∃ s ∈ AMINO_ACID_DATA, s.amino_acid = e.amino_acid ∧
      domCert e.mu_H e.mu_C s r = true := by
  have h := tableCert_true
  rw [tableCert, List.all_eq_true] at h
  have h1 := h e he
  rw [Bool.or_eq_true] at h1
  rcases h1 with h1 | h1
  · exact absurd (by simpa using h1) hne
  · rw [List.all_eq_true] at h1
    have h2 := h1 r hr
    rw [Bool.or_eq_true] at h2
    rcases h2 with h2 | h2
    · exact absurd (by simpa using h2) hdiff
    · rw [List.any_eq_true] at h2
      obtain ⟨s, hs, hs2⟩ := h2
      rw [Bool.and_eq_true] at hs2
      exact ⟨s, hs, by simpa using hs2.1, hs2.2⟩

theorem f_x_le_own (e : ReferenceEntry) (he : e ∈ AMINO_ACID_DATA) (hne : e ∉ EXCLUDED)
    (t : String) :
    f_x AMINO_ACID_DATA (e.mu_H : ℝ) (e.mu_C : ℝ) t ≤
      f_x AMINO_ACID_DATA (e.mu_H : ℝ) (e.mu_C : ℝ) e.amino_acid := by
  by_cases hta : t = e.amino_acid
  · rw [hta]
  · have hc : 0 ≤ f_x AMINO_ACID_DATA (e.mu_H : ℝ) (e.mu_C : ℝ) e.amino_acid := by
      obtain ⟨h1, h2⟩ := table_sigma_posR e he
      exact (lt_of_lt_of_le (entryDensity_pos _ _ e h1 h2)
        (entryDensity_le_f_x _ _ he rfl)).le
    apply f_x_le_of_forall hc
    intro r hr haa
    have hdiff : r.amino_acid ≠ e.amino_acid := by
      rw [haa]
      exact hta
    obtain ⟨s, hs, hsaa, hcert⟩ := cert_elim he hr hne hdiff
    obtain ⟨hsH, hsC⟩ := table_sigma_posR s hs
    obtain ⟨hrH, hrC⟩ := table_sigma_posR r hr
    exact le_trans (domCert_sound e.mu_H e.mu_C s r hsH hsC hrH hrC hcert)
      (entryDensity_le_f_x _ _ hs hsaa)

theorem densityList_ne_nil {table : List ReferenceEntry} {a b : ℝ} {t : String}
    (ht : t ∈ amino_acids table) : densityList table a b t ≠ [] := by
  obtain ⟨e, he, haa⟩ := mem_amino_acids.mp ht
  intro h
  have hmem := entryDensity_mem_densityList a b he haa
  rw [h] at hmem
  cases hmem

theorem f_x_lt_of_forall {table : List ReferenceEntry} {a b : ℝ} {t : String} {c : ℝ}
    (ht : t ∈ amino_acids table)
    (h : ∀ e ∈ table, e.amino_acid = t → entryDensity a b e < c) :
    f_x table a b t < c := by
  have hmem := pyMax_mem (densityList_ne_nil (a := a) (b := b) ht)
  obtain ⟨e, he, haa, heq⟩ := densityList_mem_elim hmem
  unfold f_x
  rw [heq]
  exact h e he haa

unseal Rat.ofScientific Rat.add Rat.sub Rat.mul Rat.inv in
theorem met_beaten_cert : ∀ r ∈ AMINO_ACID_DATA, r.amino_acid = "Met" →
    domCertS metEntry.mu_H metEntry.mu_C alaEntry r = true := by
  decide

unseal Rat.ofScientific Rat.add Rat.sub Rat.mul Rat.inv in
theorem trpZ3_beaten_cert : ∀ r ∈ AMINO_ACID_DATA, r.amino_acid = "Trp" →
    domCertS trpZ3Entry.mu_H trpZ3Entry.mu_C tyrE1Entry r = true := by
  decide

unseal Rat.ofScientific Rat.add Rat.sub Rat.mul Rat.inv in
theorem hisE2_beaten_cert : ∀ r ∈ AMINO_ACID_DATA, r.amino_acid = "His" →
    domCertS hisE2Entry.mu_H hisE2Entry.mu_C trpDEntry r = true := by
  decide

theorem f_x_beaten {p winner : ReferenceEntry} {t w : String}
    (hw : winner ∈ AMINO_ACID_DATA) (hwl : winner.amino_acid = w)
    (ht : t ∈ amino_acids AMINO_ACID_DATA)
    (hcert : ∀ r ∈ AMINO_ACID_DATA, r.amino_acid = t →
      domCertS p.mu_H p.mu_C winner r = true) :
    f_x AMINO_ACID_DATA (p.mu_H : ℝ) (p.mu_C : ℝ) t <
      f_x AMINO_ACID_DATA (p.mu_H : ℝ) (p.mu_C : ℝ) w := by
  apply lt_of_lt_of_le _ (entryDensity_le_f_x _ _ hw hwl)
  apply f_x_lt_of_forall ht
  intro r hr haa
  obtain ⟨hwH, hwC⟩ := table_sigma_posR winner hw
  obtain ⟨hrH, hrC⟩ := table_sigma_posR r hr
  exact domCertS_sound p.mu_H p.mu_C winner r hwH hwC hrH hrC (hcert r hr haa)

theorem sorted_probs_perm (table : List ReferenceEntry) (a b : ℝ) :
    (sorted_probs table a b).Perm (prob_list table a b) :=
  List.mergeSort_perm _ _

theorem sorted_probs_sorted (table : List ReferenceEntry) (a b : ℝ) :
    List.Pairwise (fun p q : String × ℝ => q.2 ≤ p.2) (sorted_probs table a b) := by
  have htrans : ∀ p q r : String × ℝ, decide (q.2 ≤ p.2) = true → decide (r.2 ≤ q.2) = true →
      decide (r.2 ≤ p.2) = true := by
    intro p q r h1 h2
    exact decide_eq_true (le_trans (of_decide_eq_true h2) (of_decide_eq_true h1))
  have htotal : ∀ p q : String × ℝ, (decide (q.2 ≤ p.2) || decide (p.2 ≤ q.2)) = true := by
    intro p q
    rcases le_total q.2 p.2 with h | h
    · rw [decide_eq_true h, Bool.true_or]
    · rw [decide_eq_true h, Bool.or_true]
  have h := List.sorted_mergeSort htrans htotal (prob_list table a b)
  unfold sorted_probs
  exact List.Pairwise.imp (fun hpq => of_decide_eq_true hpq) h

theorem prob_list_mem_elim {table : List ReferenceEntry} {a b : ℝ} {p : String × ℝ}
    (hp : p ∈ prob_list table a b) :
    p.1 ∈ amino_acids table ∧ p.2 = prob table a b p.1 := by
  unfold prob_list at hp
  obtain ⟨t, ht, rfl⟩ := List.mem_map.mp hp
  exact ⟨ht, rfl⟩

theorem prob_list_mem_intro {table : List ReferenceEntry} (a b : ℝ) {t : String}
    (ht : t ∈ amino_acids table) : (t, prob table a b t) ∈ prob_list table a b :=
  List.mem_map_of_mem _ ht

theorem map_div_sum (l : List String) (g : String → ℝ) (c : ℝ) :
    (l.map (fun t => g t / c)).sum = (l.map g).sum / c := by
  induction l with
  | nil => simp
  | cons x xs ih => simp [ih, add_div]

/-- Claim C1: for every observed coordinate, with `f_x` the per-type
aggregated density and `total_density` the sum of `f_x` over the distinct
amino-acid types: if the total is positive, each type's probability equals
`f_x / total_density` and the probabilities over the distinct types sum
to 1; if the total is zero, every type's probability equals 0. -/
theorem C1_normalization (table : List ReferenceEntry) (a b : ℝ) :
    (0 < total_density table a b →
      (∀ t, prob table a b t = f_x table a b t / total_density table a b) ∧
      ((amino_acids table).map (prob table a b)).sum = 1) ∧
    (total_density table a b = 0 → ∀ t, prob table a b t = 0) := by
  constructor
  · intro hpos
    have hprob : ∀ t, prob table a b t = f_x table a b t / total_density table a b := by
      intro t
      unfold prob
      rw [if_pos hpos]
    refine ⟨hprob, ?_⟩
    have hmap : (amino_acids table).map (prob table a b)
        = (amino_acids table).map (fun t => f_x table a b t / total_density table a b) :=
      List.map_congr_left (fun t _ => hprob t)
    rw [hmap, map_div_sum]
    unfold total_density at hpos ⊢
    exact div_self (ne_of_gt hpos)
  · intro hzero t
    norm_num [prob, hzero]

/-- Witness for C1: at the production table and the origin the total is
positive and the probabilities sum to 1. -/
theorem C1_normalization_witness :
    0 < total_density AMINO_ACID_DATA 0 0 ∧
    ((amino_acids AMINO_ACID_DATA).map (prob AMINO_ACID_DATA 0 0)).sum = 1 :=
  ⟨total_density_TABLE_pos 0 0,
    ((C1_normalization AMINO_ACID_DATA 0 0).1 (total_density_TABLE_pos 0 0)).2⟩

/-- Claim C2: for every observed coordinate and every distinct label `t`,
the aggregated score `f_x` is the maximum — not the sum or mean — of the
per-entry densities over the entries labelled `t`: it is one of those
densities and it bounds all of them. -/
theorem C2_max_aggregation (table : List ReferenceEntry) (a b : ℝ) (t : String)
    (ht : t ∈ amino_acids table) :
    f_x table a b t ∈ densityList table a b t ∧
    ∀ d ∈ densityList table a b t, d ≤ f_x table a b t := by
  constructor
  · exact pyMax_mem (densityList_ne_nil ht)
  · intro d hd
    exact le_pyMax hd

/-- Witness for C2 at the label `Ala` of the production table. -/
theorem C2_max_aggregation_witness :
    "Ala" ∈ amino_acids AMINO_ACID_DATA ∧
    (f_x AMINO_ACID_DATA 1 2 "Ala" ∈ densityList AMINO_ACID_DATA 1 2 "Ala" ∧
      ∀ d ∈ densityList AMINO_ACID_DATA 1 2 "Ala", d ≤ f_x AMINO_ACID_DATA 1 2 "Ala") :=
  ⟨by decide, C2_max_aggregation AMINO_ACID_DATA 1 2 "Ala" (by decide)⟩

/-- Claim C3: the per-entry density equals the standard two-dimensional
independent-Gaussian probability density at the observed point. -/
theorem C3_density_formula (a b mu_H sigma_H mu_C sigma_C : ℝ) :
    probability_density a b mu_H sigma_H mu_C sigma_C =
      Real.exp (-0.5 * (((a - mu_H) / sigma_H) ^ 2 + ((b - mu_C) / sigma_C) ^ 2)) /
        (2 * Real.pi * sigma_H * sigma_C) := by
  unfold probability_density
  rw [div_eq_mul_inv]
  norm_num
  ring

/-- Claim C4 (amended): for every production-table row `e` other than the
`Met ε`, `Trp ζ3` and `His ε2` rows, scoring the coordinate
`(e.mu_H, e.mu_C)` yields a ranked result in which `e.amino_acid` appears
and has probability at least that of every ranked pair, i.e. it is
top-ranked or tied for the top probability. -/
theorem C4_top_at_mean_amended (e : ReferenceEntry) (he : e ∈ AMINO_ACID_DATA)
    (hne : e ∉ EXCLUDED) :
    (e.amino_acid,
        prob AMINO_ACID_DATA (e.mu_H : ℝ) (e.mu_C : ℝ) e.amino_acid) ∈
      sorted_probs AMINO_ACID_DATA (e.mu_H : ℝ) (e.mu_C : ℝ) ∧
    ∀ p ∈ sorted_probs AMINO_ACID_DATA (e.mu_H : ℝ) (e.mu_C : ℝ),
      p.2 ≤ prob AMINO_ACID_DATA (e.mu_H : ℝ) (e.mu_C : ℝ) e.amino_acid := by
  constructor
  · exact ((sorted_probs_perm AMINO_ACID_DATA _ _).mem_iff).mpr
      (prob_list_mem_intro _ _ (mem_amino_acids.mpr ⟨e, he, rfl⟩))
  · intro p hp
    have hp' := ((sorted_probs_perm AMINO_ACID_DATA _ _).mem_iff).mp hp
    obtain ⟨ht, hval⟩ := prob_list_mem_elim hp'
    rw [hval]
    exact prob_TABLE_le _ _ (f_x_le_own e he hne p.1)

unseal Rat.ofScientific in
/-- Witness for the amended C4 at the `Ala β` row. -/
theorem C4_top_at_mean_amended_witness :
    alaEntry ∈ AMINO_ACID_DATA ∧ alaEntry ∉ EXCLUDED ∧
    ((alaEntry.amino_acid,
        prob AMINO_ACID_DATA (alaEntry.mu_H : ℝ) (alaEntry.mu_C : ℝ) alaEntry.amino_acid) ∈
      sorted_probs AMINO_ACID_DATA (alaEntry.mu_H : ℝ) (alaEntry.mu_C : ℝ) ∧
    ∀ p ∈ sorted_probs AMINO_ACID_DATA (alaEntry.mu_H : ℝ) (alaEntry.mu_C : ℝ),
      p.2 ≤ prob AMINO_ACID_DATA (alaEntry.mu_H : ℝ) (alaEntry.mu_C : ℝ) alaEntry.amino_acid) :=
  ⟨by decide, by decide, C4_top_at_mean_amended alaEntry (by decide) (by decide)⟩

unseal Rat.ofScientific in
theorem metEntry_mem : metEntry ∈ AMINO_ACID_DATA := by decide

unseal Rat.ofScientific in
theorem trpZ3Entry_mem : trpZ3Entry ∈ AMINO_ACID_DATA := by decide

unseal Rat.ofScientific in
theorem hisE2Entry_mem : hisE2Entry ∈ AMINO_ACID_DATA := by decide

unseal Rat.ofScientific in
theorem alaEntry_mem : alaEntry ∈ AMINO_ACID_DATA := by decide

unseal Rat.ofScientific in
theorem tyrE1Entry_mem : tyrE1Entry ∈ AMINO_ACID_DATA := by decide

unseal Rat.ofScientific in
theorem trpDEntry_mem : trpDEntry ∈ AMINO_ACID_DATA := by decide

/-- Counterexample to claim C4 as stated: at the means of the `Met ε`,
`Trp ζ3` and `His ε2` rows, each row's own type has strictly smaller
probability than another type present in the ranked result, so it is
neither top-ranked nor tied for the top. -/
theorem C4_counterexample :
    (metEntry ∈ AMINO_ACID_DATA ∧ metEntry.amino_acid = "Met" ∧
      "Ala" ∈ amino_acids AMINO_ACID_DATA ∧
      prob AMINO_ACID_DATA (metEntry.mu_H : ℝ) (metEntry.mu_C : ℝ) "Met" <
        prob AMINO_ACID_DATA (metEntry.mu_H : ℝ) (metEntry.mu_C : ℝ) "Ala") ∧
    (trpZ3Entry ∈ AMINO_ACID_DATA ∧ trpZ3Entry.amino_acid = "Trp" ∧
      "Tyr" ∈ amino_acids AMINO_ACID_DATA ∧
      prob AMINO_ACID_DATA (trpZ3Entry.mu_H : ℝ) (trpZ3Entry.mu_C : ℝ) "Trp" <
        prob AMINO_ACID_DATA (trpZ3Entry.mu_H : ℝ) (trpZ3Entry.mu_C : ℝ) "Tyr") ∧
    (hisE2Entry ∈ AMINO_ACID_DATA ∧ hisE2Entry.amino_acid = "His" ∧
      "Trp" ∈ amino_acids AMINO_ACID_DATA ∧
      prob AMINO_ACID_DATA (hisE2Entry.mu_H : ℝ) (hisE2Entry.mu_C : ℝ) "His" <
        prob AMINO_ACID_DATA (hisE2Entry.mu_H : ℝ) (hisE2Entry.mu_C : ℝ) "Trp") := by
  refine ⟨⟨metEntry_mem, rfl, by decide, ?_⟩,
    ⟨trpZ3Entry_mem, rfl, by decide, ?_⟩,
    ⟨hisE2Entry_mem, rfl, by decide, ?_⟩⟩
  · exact prob_TABLE_lt _ _
      (f_x_beaten (p := metEntry) alaEntry_mem rfl (by decide) met_beaten_cert)
  · exact prob_TABLE_lt _ _
      (f_x_beaten (p := trpZ3Entry) tyrE1Entry_mem rfl (by decide) trpZ3_beaten_cert)
  · exact prob_TABLE_lt _ _
      (f_x_beaten (p := hisE2Entry) trpDEntry_mem rfl (by decide) hisE2_beaten_cert)

/-- Claim C5: for every observed coordinate the ranked result is sorted in
non-increasing order of probability, is a permutation of the per-type
probability mapping — whose keys are exactly the distinct amino-acid
labels, without repetition — and carries the same probability values as
the mapping. -/
theorem C5_ranking (table : List ReferenceEntry) (a b : ℝ) :
    List.Pairwise (fun p q : String × ℝ => q.2 ≤ p.2) (sorted_probs table a b) ∧
    (sorted_probs table a b).Perm (prob_list table a b) ∧
    (prob_list table a b).map Prod.fst = amino_acids table ∧
    (amino_acids table).Nodup ∧
    ∀ p ∈ sorted_probs table a b, p.2 = prob table a b p.1 := by
  refine ⟨sorted_probs_sorted table a b, sorted_probs_perm table a b, ?_, ?_, ?_⟩
  · unfold prob_list
    rw [List.map_map]
    exact ((List.map_congr_left (fun t _ => rfl)).trans (List.map_id _))
  · unfold amino_acids
    exact List.nodup_dedup _
  · intro p hp
    exact (prob_list_mem_elim ((sorted_probs_perm table a b).mem_iff.mp hp)).2

/-- Witness for C5 at the production table and the point `(1, 2)`. -/
theorem C5_ranking_witness :
    List.Pairwise (fun p q : String × ℝ => q.2 ≤ p.2) (sorted_probs AMINO_ACID_DATA 1 2) ∧
    (sorted_probs AMINO_ACID_DATA 1 2).Perm (prob_list AMINO_ACID_DATA 1 2) ∧
    (prob_list AMINO_ACID_DATA 1 2).map Prod.fst = amino_acids AMINO_ACID_DATA ∧
    (amino_acids AMINO_ACID_DATA).Nodup ∧
    ∀ p ∈ sorted_probs AMINO_ACID_DATA 1 2, p.2 = prob AMINO_ACID_DATA 1 2 p.1 :=
  C5_ranking AMINO_ACID_DATA 1 2

/-- Claim C6: with the distribution parameters fixed and both standard
deviations positive, the density strictly decreases as the normalized
squared distance `z` strictly increases. -/
theorem C6_monotonicity (a1 b1 a2 b2 mu_H sigma_H mu_C sigma_C : ℝ)
    (hH : 0 < sigma_H) (hC : 0 < sigma_C)
    (h : zval a2 b2 mu_H sigma_H mu_C sigma_C < zval a1 b1 mu_H sigma_H mu_C sigma_C) :
    probability_density a1 b1 mu_H sigma_H mu_C sigma_C <
      probability_density a2 b2 mu_H sigma_H mu_C sigma_C := by
  unfold zval at h
  unfold probability_density
  have hcoef : 0 < 1.0 / (2.0 * Real.pi * sigma_H * sigma_C) := by
    have hden : (0 : ℝ) < 2.0 * Real.pi * sigma_H * sigma_C :=
      mul_pos (mul_pos (by positivity) hH) hC
    exact div_pos (by norm_num) hden
  exact mul_lt_mul_of_pos_left (Real.exp_lt_exp.mpr (by linarith)) hcoef

/-- Witness for C6 at concrete parameters: the point at distance 3 has a
strictly larger `z` and a strictly smaller density than the point at
distance 1 from a standard entry. -/
theorem C6_monotonicity_witness :
    (0 : ℝ) < 1 ∧ zval 1 0 0 1 0 1 < zval 3 0 0 1 0 1 ∧
    probability_density 3 0 0 1 0 1 < probability_density 1 0 0 1 0 1 :=
  ⟨by norm_num, by norm_num [zval],
    C6_monotonicity 3 0 1 0 0 1 0 1 (by norm_num) (by norm_num) (by norm_num [zval])⟩

/-- Claim C7: the density of an entry is unchanged when the offsets of the
observed point from the entry's means are reflected. -/
theorem C7_reflection (e : ReferenceEntry) (d1 d2 : ℝ) :
    entryDensity ((e.mu_H : ℝ) + d1) ((e.mu_C : ℝ) + d2) e =
      entryDensity ((e.mu_H : ℝ) - d1) ((e.mu_C : ℝ) - d2) e := by
  unfold entryDensity probability_density
  congr 2
  ring

/-- Claim C8: the classifier output is a pure function of the observed
coordinate over the fixed reference table: the result does not depend on
the `verbose` reporting flag, and two calls with the same coordinate
return identical output. -/
theorem C8_purity (a b : ℝ) (v1 v2 : Bool) :
    calculate_amino_acid_probabilities a b v1 = calculate_amino_acid_probabilities a b v2 ∧
    calculate_amino_acid_probabilities a b v1 = calculate_amino_acid_probabilities a b v1 :=
  ⟨rfl, rfl⟩

theorem table_count_bounds : ∀ t ∈ amino_acids AMINO_ACID_DATA,
    1 ≤ (AMINO_ACID_DATA.filter (fun e => e.amino_acid == t)).length ∧
    (AMINO_ACID_DATA.filter (fun e => e.amino_acid == t)).length ≤ 5 := by
  decide

theorem table_pairs_nodup :
    (AMINO_ACID_DATA.map (fun e => (e.amino_acid, e.position_label))).Nodup := by
  decide

/-- Claim C9: the production table satisfies its invariants: every entry
has positive standard deviations, every label occurring in the table has
between one and five entries, and no two entries share the same
`(amino_acid, position_label)` pair. -/
theorem C9_invariants :
    (∀ e ∈ AMINO_ACID_DATA, (0 : ℚ) < e.sigma_H ∧ (0 : ℚ) < e.sigma_C) ∧
    (∀ t ∈ amino_acids AMINO_ACID_DATA,
      1 ≤ (AMINO_ACID_DATA.filter (fun e => e.amino_acid == t)).length ∧
      (AMINO_ACID_DATA.filter (fun e => e.amino_acid == t)).length ≤ 5) ∧
    (AMINO_ACID_DATA.map (fun e => (e.amino_acid, e.position_label))).Nodup :=
  ⟨table_sigma_pos, table_count_bounds, table_pairs_nodup⟩

/-- Witness for C9 at the `Met ε` row and the `Met` label. -/
theorem C9_invariants_witness :
    metEntry ∈ AMINO_ACID_DATA ∧
    ((0 : ℚ) < metEntry.sigma_H ∧ (0 : ℚ) < metEntry.sigma_C) ∧
    "Met" ∈ amino_acids AMINO_ACID_DATA ∧
    (1 ≤ (AMINO_ACID_DATA.filter (fun e => e.amino_acid == "Met")).length ∧
      (AMINO_ACID_DATA.filter (fun e => e.amino_acid == "Met")).length ≤ 5) :=
  ⟨metEntry_mem, C9_invariants.1 metEntry metEntry_mem, by decide,
    C9_invariants.2.1 "Met" (by decide)⟩

/-- Claim C10: `calculate_delta_comb` fails with the `ValueError` exactly
when the lowercased residue type is neither `aliphatic` nor `aromatic`;
otherwise it returns the triple
`(sqrt(1.00·|H2-H1|² + ω_C·|C2-C1|²), |H2-H1|, |C2-C1|)` with
`ω_C = 0.34` for aliphatic and `ω_C = 0.07` for aromatic input. -/
theorem C10_delta_comb (H1 C1 H2 C2 : ℝ) (residue_type : String) :
    ((∃ msg, calculate_delta_comb H1 C1 H2 C2 residue_type = Except.error msg) ↔
      (residue_type.toLower ≠ "aliphatic" ∧ residue_type.toLower ≠ "aromatic")) ∧
    (residue_type.toLower = "aliphatic" →
      calculate_delta_comb H1 C1 H2 C2 residue_type =
        Except.ok (Real.sqrt (1.00 * |H2 - H1| ^ 2 + 0.34 * |C2 - C1| ^ 2),
          |H2 - H1|, |C2 - C1|)) ∧
    (residue_type.toLower = "aromatic" →
      calculate_delta_comb H1 C1 H2 C2 residue_type =
        Except.ok (Real.sqrt (1.00 * |H2 - H1| ^ 2 + 0.07 * |C2 - C1| ^ 2),
          |H2 - H1|, |C2 - C1|)) := by
  unfold calculate_delta_comb
  by_cases h1 : residue_type.toLower = "aliphatic"
  · simp [h1]
  · by_cases h2 : residue_type.toLower = "aromatic"
    · simp [h1, h2]
    · simp [h1, h2]

unseal String.mapAux in
/-- Witness for C10 at a concrete aliphatic query. -/
theorem C10_delta_comb_witness :
    ("Aliphatic".toLower = "aliphatic") ∧
    calculate_delta_comb 1.2 110 1.25 109.5 "Aliphatic" =
      Except.ok (Real.sqrt (1.00 * |(1.25 : ℝ) - 1.2| ^ 2 + 0.34 * |(109.5 : ℝ) - 110| ^ 2),
        |(1.25 : ℝ) - 1.2|, |(109.5 : ℝ) - 110|) :=
  ⟨by decide, (C10_delta_comb 1.2 110 1.25 109.5 "Aliphatic").2.1 (by decide)⟩
